import Mathlib

/-!
Verification of StormyDB: a shallow embedding of its RESP wire codec
(src/resp.go), command handlers (src/handlers.go), append-only-file
persistence (src/aof.go) and client/replay dispatch (src/main.go),
with theorems settling the stated behavioural claims.

Go byte streams are modelled as `List Char` (one `Char` per byte), Go
strings as Lean `String`, Go `int` as `Int` with explicit two's-complement
wrap where overflow matters, Go maps as association lists, and fallible
reads as `Except`.  Stateful global maps become explicit `Store` passing.
-/

namespace StormyDB

/-! ## The Value type (src/resp.go, `type Value struct`)

Go's `Value` is a struct with a string tag and one field per payload kind;
we keep all five fields, exactly as the source does. -/

inductive Value where
  | mk (typ : String) (str : String) (num : Int) (bulk : String) (array : List Value)

mutual

/-- Structural equality test on `Value` (Go compares struct fields). -/
def Value.beq : Value → Value → Bool
  | .mk t1 s1 n1 b1 a1, .mk t2 s2 n2 b2 a2 =>
    t1 == t2 && s1 == s2 && n1 == n2 && b1 == b2 && Value.beqList a1 a2

def Value.beqList : List Value → List Value → Bool
  | [], [] => true
  | v :: vs, w :: ws => Value.beq v w && Value.beqList vs ws
  | _, _ => false

end

instance : BEq Value := ⟨Value.beq⟩

def Value.typ : Value → String
  | .mk t _ _ _ _ => t

def Value.str : Value → String
  | .mk _ s _ _ _ => s

def Value.num : Value → Int
  | .mk _ _ n _ _ => n

def Value.bulk : Value → String
  | .mk _ _ _ b _ => b

def Value.array : Value → List Value
  | .mk _ _ _ _ a => a

/-- The Go zero value `Value\x7b\x7d`: what `RESP.Read` returns on an
unsupported marker byte. -/
def Value.emptyV : Value := .mk "" "" 0 "" []

/-- Shorthand for the simple-string results the handlers build. -/
def strV (s : String) : Value := .mk "string" s 0 "" []

/-- Shorthand for the error results the handlers build. -/
def errV (s : String) : Value := .mk "error" s 0 "" []

/-- Shorthand for the integer results the handlers build. -/
def intV (n : Int) : Value := .mk "integer" "" n "" []

/-- Shorthand for bulk-string values. -/
def bulkV (b : String) : Value := .mk "bulk" "" 0 b []

/-- Shorthand for the null result. -/
def nullV : Value := .mk "null" "" 0 "" []

/-! ## Decimal formatting: Go's `strconv.Itoa` -/

/-- The ASCII character of the decimal digit `d`. -/
def digitChar (d : Nat) : Char := Char.ofNat (48 + d)

/-- Digit accumulation of `strconv.Itoa`, most significant digit first;
`f` is fuel bounding the number of digits (structural, so that concrete
evaluation reduces). -/
def natDigitsGo : Nat → Nat → List Char → List Char
  | 0, _, acc => acc
  | f + 1, n, acc =>
    if n < 10 then digitChar n :: acc
    else natDigitsGo f (n / 10) (digitChar (n % 10) :: acc)

/-- The decimal digits of `n` (`n + 1` fuel always suffices: a number has
at most `n + 1` digits). -/
def natDigits (n : Nat) : List Char := natDigitsGo (n + 1) n []

/-- Go's `strconv.Itoa`: minus sign for negatives, then decimal digits. -/
def goItoa (n : Int) : String :=
  if n < 0 then "-" ++ String.mk (natDigits (-n).toNat)
  else String.mk (natDigits n.toNat)

/-! ## Decimal parsing: Go's `strconv.ParseInt(s, 10, 64)` / `strconv.Atoi` -/

/-- The digit loop of `strconv.ParseInt`: every character must satisfy
`'0' <= c && c <= '9'` and contributes `c - '0'`. -/
def parseFold : List Char → Nat → Option Nat
  | [], acc => some acc
  | c :: cs, acc =>
    if 48 ≤ c.toNat ∧ c.toNat ≤ 57 then parseFold cs (acc * 10 + (c.toNat - 48))
    else none

/-- Parse a nonempty all-digit string (after sign stripping); empty input is
a syntax error, as in Go. -/
def parseDigits (l : List Char) : Option Nat :=
  match l with
  | [] => none
  | _ :: _ => parseFold l 0

/-- Sign handling of `strconv.ParseInt`: an optional leading `+` or `-`,
then digits. -/
def goParseIntCore (l : List Char) : Option Int :=
  match l with
  | [] => none
  | c :: rest =>
    if c = '+' then (parseDigits rest).map (fun n => (n : Int))
    else if c = '-' then (parseDigits rest).map (fun n => -(n : Int))
    else (parseDigits l).map (fun n => (n : Int))

/-- Go's `strconv.ParseInt(s, 10, 64)`: parse, then range-check against
int64; out-of-range input is an error to the caller. -/
def goParseInt (s : String) : Option Int :=
  match goParseIntCore s.data with
  | none => none
  | some i => if -(2 ^ 63) ≤ i ∧ i ≤ 2 ^ 63 - 1 then some i else none

/-- Go's `strconv.Atoi` (64-bit platform): same accepted values as
`ParseInt(s, 10, 64)`. -/
def goAtoi (s : String) : Option Int := goParseInt s

/-- Two's-complement wrap of Go's 64-bit `int` arithmetic
(`intValue++` in `handleIncr` wraps on overflow). -/
def wrap64 (x : Int) : Int := (x + 2 ^ 63) % 2 ^ 64 - 2 ^ 63

/-! ## Decode errors -/

/-- The error outcomes of the reading side: `eof` is Go's `io.EOF`,
`parseErr` a `strconv` failure, `panicked` a runtime panic
(`make([]byte, n)` with negative `n`), `outOfFuel` a modelling artifact
(never hit with sufficient fuel). -/
inductive RErr where
  | eof
  | parseErr
  | panicked
  | outOfFuel
deriving DecidableEq

/-! ## `RESP.readLine` (src/resp.go lines 38-51)

Reads byte by byte, stopping once the second-to-last byte read is `'\r'`;
returns the line with the final two bytes trimmed.  End of stream before
the terminator is `io.EOF`. -/

def readLineAux : List Char → List Char → Except RErr (List Char × List Char)
  | _, [] => .error .eof
  | acc, c :: rest =>
    if acc.getLast? = some '\r' then .ok (acc.dropLast, rest)
    else readLineAux (acc ++ [c]) rest

def readLine (s : List Char) : Except RErr (List Char × List Char) :=
  readLineAux [] s

/-- `RESP.readInteger`: a line, parsed with `strconv.ParseInt(_, 10, 64)`. -/
def readInteger (s : List Char) : Except RErr (Int × List Char) :=
  match readLine s with
  | .error e => .error e
  | .ok (line, rest) =>
    match goParseInt (String.mk line) with
    | none => .error .parseErr
    | some i => .ok (i, rest)

/-- `readBulk` discards `readLine`'s result and error when consuming the
trailing CRLF: the stream position afterwards (at end of stream the reader
is fully consumed). -/
def dropLine (s : List Char) : List Char :=
  match readLine s with
  | .ok (_, rest) => rest
  | .error _ => []

/-- `RESP.readBulk` (src/resp.go lines 111-131): reads a declared length,
then `make([]byte, len)` (panics when negative), a single `Read` into that
buffer whose error AND short count are ignored (missing bytes stay zero),
then discards the trailing line. -/
def readBulk (s : List Char) : Except RErr (Value × List Char) :=
  match readInteger s with
  | .error e => .error e
  | .ok (len, rest) =>
    if len < 0 then .error .panicked
    else
      let l := len.toNat
      let taken := rest.take l
      let payload := taken ++ List.replicate (l - taken.length) (Char.ofNat 0)
      .ok (.mk "bulk" "" 0 (String.mk payload) [], dropLine (rest.drop l))

/-- The element loop of `RESP.readArray`: read exactly `cnt` nested values
with the given reader, in order, propagating the first error. -/
def readLoop (rd : List Char → Except RErr (Value × List Char)) :
    Nat → List Char → Except RErr (List Value × List Char)
  | 0, s => .ok ([], s)
  | c + 1, s =>
    match rd s with
    | .error e => .error e
    | .ok (v, s') =>
      match readLoop rd c s' with
      | .error e => .error e
      | .ok (vs, s'') => .ok (v :: vs, s'')

/-- `RESP.Read` (src/resp.go lines 67-83): one marker byte, then the array
or bulk readers; any OTHER marker prints a diagnostic and returns the zero
`Value` with a nil error.  `fuel` bounds array nesting depth (structural
recursion artifact). -/
def respRead : Nat → List Char → Except RErr (Value × List Char)
  | 0, _ => .error .outOfFuel
  | f + 1, s =>
    match s with
    | [] => .error .eof
    | c :: rest =>
      if c = '*' then
        match readInteger rest with
        | .error e => .error e
        | .ok (len, rest') =>
          match readLoop (respRead f) len.toNat rest' with
          | .error e => .error e
          | .ok (vs, rest'') => .ok (.mk "array" "" 0 "" vs, rest'')
      else if c = '$' then readBulk rest
      else .ok (Value.emptyV, rest)

/-! ## `Value.Marshal` (src/resp.go lines 134-201) -/

mutual

/-- `Value.Marshal`: switch on the type tag, in source order; an unknown
tag (including `"integer"`) yields the empty byte slice. -/
def Value.marshal : Value → List Char
  | .mk typ str _ bulk arr =>
    if typ = "array" then
      '*' :: natDigits arr.length ++ ['\r', '\n'] ++ marshalList arr
    else if typ = "bulk" then
      '$' :: natDigits bulk.length ++ ['\r', '\n'] ++ bulk.data ++ ['\r', '\n']
    else if typ = "string" then
      '+' :: str.data ++ ['\r', '\n']
    else if typ = "null" then
      ['$', '-', '1', '\r', '\n']
    else if typ = "error" then
      '-' :: str.data ++ ['\r', '\n']
    else []

/-- The concatenation loop of `marshalArray`. -/
def marshalList : List Value → List Char
  | [] => []
  | v :: vs => v.marshal ++ marshalList vs

end

/-! ## Key spaces (src/handlers.go)

Go's global maps `SETs : map[string]string` and
`HSETs : map[string]map[string]string` become an explicit `Store` of
association lists (one entry per key; insertion replaces in place, as a
Go map assignment does). -/

/-- `m[k]` with its `ok` flag: `some` iff the key is present. -/
def lookupA {α : Type} : List (String × α) → String → Option α
  | [], _ => none
  | (k', v') :: t, k => if k' = k then some v' else lookupA t k

/-- `m[k] = v`: replace the binding in place, or append a fresh one. -/
def insertA {α : Type} : List (String × α) → String → α → List (String × α)
  | [], k, v => [(k, v)]
  | (k', v') :: t, k, v => if k' = k then (k, v) :: t else (k', v') :: insertA t k v

/-- `delete(m, k)`: remove the binding when present. -/
def eraseA {α : Type} : List (String × α) → String → List (String × α)
  | [], _ => []
  | (k', v') :: t, k => if k' = k then t else (k', v') :: eraseA t k

/-- The process-wide key spaces: the scalar space `SETs` and the hash
space `HSETs`. -/
structure Store where
  sets : List (String × String)
  hsets : List (String × List (String × String))
deriving DecidableEq

/-- Both spaces start empty. -/
def Store.empty : Store := ⟨[], []⟩

/-! ## Command handlers (src/handlers.go)

Each Go handler reads/writes the global maps and returns a `Value`; here
it takes and returns the `Store` explicitly. -/

/-- `handlePing`: no arity check; echoes `args[0].bulk` when any argument
is given, else the fixed `"PONG"`. Touches no key space. -/
def handlePing (args : List Value) (st : Store) : Value × Store :=
  match args with
  | [] => (strV "PONG", st)
  | a :: _ => (strV a.bulk, st)

/-- `handleSet`: arity 2, then overwrite the scalar key. -/
def handleSet (args : List Value) (st : Store) : Value × Store :=
  match args with
  | [k0, v0] =>
    (strV "OK", { st with sets := insertA st.sets k0.bulk v0.bulk })
  | _ => (errV "ERR wrong number of arguments for 'set' command", st)

/-- `handleGet`: arity 1; absent key gives the null value. -/
def handleGet (args : List Value) (st : Store) : Value × Store :=
  match args with
  | [k0] =>
    match lookupA st.sets k0.bulk with
    | none => (nullV, st)
    | some value => (bulkV value, st)
  | _ => (errV "ERR wrong number of arguments for 'get' command", st)

/-- The deletion loop of `handleDel`: remove each present key, counting. -/
def delLoop : List Value → List (String × String) → Nat →
    List (String × String) × Nat
  | [], m, c => (m, c)
  | a :: rest, m, c =>
    match lookupA m a.bulk with
    | some _ => delLoop rest (eraseA m a.bulk) (c + 1)
    | none => delLoop rest m c

/-- `handleDel`: at least one key, then delete each present one and return
the count removed. -/
def handleDel (args : List Value) (st : Store) : Value × Store :=
  if args.length = 0 then (errV "ERR wrong number of arguments for 'del' command", st)
  else
    let (m, c) := delLoop args st.sets 0
    (intV c, { st with sets := m })

/-- The counting loop of `handleExists`. -/
def existsLoop : List Value → List (String × String) → Nat → Nat
  | [], _, c => c
  | a :: rest, m, c =>
    match lookupA m a.bulk with
    | some _ => existsLoop rest m (c + 1)
    | none => existsLoop rest m c

/-- `handleExists`: at least one key, then count the present ones. -/
def handleExists (args : List Value) (st : Store) : Value × Store :=
  if args.length = 0 then (errV "ERR wrong number of arguments for 'exists' command", st)
  else (intV (existsLoop args st.sets 0), st)

/-- `handleIncr`: arity 1; an absent key becomes `"1"`, a present value is
parsed with `strconv.Atoi` (failure: domain error, state untouched),
incremented with Go `int` wrap, stored back with `strconv.Itoa`. -/
def handleIncr (args : List Value) (st : Store) : Value × Store :=
  match args with
  | [k0] =>
    let key := k0.bulk
    match lookupA st.sets key with
    | none => (intV 1, { st with sets := insertA st.sets key "1" })
    | some value =>
      match goAtoi value with
      | none => (errV "ERR value is not an integer", st)
      | some n =>
        let n' := wrap64 (n + 1)
        (intV n', { st with sets := insertA st.sets key (goItoa n') })
  | _ => (errV "ERR wrong number of arguments for 'incr' command", st)

/-- `handleHSet`: arity 3; create the hash when absent, then set the
field (a Go map assignment through the outer map). -/
def handleHSet (args : List Value) (st : Store) : Value × Store :=
  match args with
  | [h0, k0, v0] =>
    let inner := match lookupA st.hsets h0.bulk with
      | none => []
      | some m => m
    (strV "OK", { st with hsets := insertA st.hsets h0.bulk (insertA inner k0.bulk v0.bulk) })
  | _ => (errV "ERR wrong number of arguments for 'hset' command", st)

/-- `handleHGet`: arity 2; `HSETs[hash][key]` — indexing a missing outer
key yields a missing field. -/
def handleHGet (args : List Value) (st : Store) : Value × Store :=
  match args with
  | [h0, k0] =>
    let v? := match lookupA st.hsets h0.bulk with
      | none => none
      | some m => lookupA m k0.bulk
    match v? with
    | none => (nullV, st)
    | some value => (bulkV value, st)
  | _ => (errV "ERR wrong number of arguments for 'hget' command", st)

/-- `handleHGetAll`: arity 1; a missing hash gives null, otherwise the
flattened field/value sequence (Go ranges the map in unspecified order;
the association list's order stands in for one such order). -/
def handleHGetAll (args : List Value) (st : Store) : Value × Store :=
  match args with
  | [h0] =>
    match lookupA st.hsets h0.bulk with
    | none => (nullV, st)
    | some m =>
      (.mk "array" "" 0 "" ((m.map (fun p => [bulkV p.1, bulkV p.2])).flatten), st)
  | _ => (errV "ERR wrong number of arguments for 'hgetall' command", st)

/-- The `Handlers` dispatch map (src/handlers.go lines 9-19). -/
def getHandler (cmd : String) : Option (List Value → Store → Value × Store) :=
  if cmd = "PING" then some handlePing
  else if cmd = "SET" then some handleSet
  else if cmd = "GET" then some handleGet
  else if cmd = "DEL" then some handleDel
  else if cmd = "EXISTS" then some handleExists
  else if cmd = "INCR" then some handleIncr
  else if cmd = "HSET" then some handleHSet
  else if cmd = "HGET" then some handleHGet
  else if cmd = "HGETALL" then some handleHGetAll
  else none

/-- Go's `strings.ToUpper` on the ASCII command names used here:
uppercase each character. -/
def goToUpper (s : String) : String := String.mk (s.data.map Char.toUpper)

/-! ## Client dispatch and the AOF (src/main.go, src/aof.go)

`handleClient` validates the request shape, appends mutating requests to
the AOF (modelled as the file's byte contents), then executes the handler.
`AOF.Read` decodes the file record by record and feeds each decoded value
to the replay callback in `main`, which dispatches WITHOUT appending. -/

/-- The store plus the append-only file's contents. -/
structure Sys where
  store : Store
  log : List Char
deriving DecidableEq

/-- One iteration of `handleClient` on an already-decoded request:
shape check, uppercase dispatch, AOF append for the four mutating
commands, then execution.  Returns the new system state and the wire
response. -/
def clientStep (sys : Sys) (value : Value) : Sys × Value :=
  if value.typ = "array" then
    match value.array with
    | [] => (sys, errV "ERR invalid request format")
    | first :: args =>
      let command := goToUpper first.bulk
      match getHandler command with
      | none => (sys, errV ("ERR unknown command: " ++ command))
      | some h =>
        let log' := if command = "SET" ∨ command = "DEL" ∨ command = "HSET" ∨ command = "INCR"
          then sys.log ++ value.marshal else sys.log
        let (res, st') := h args sys.store
        (⟨st', log'⟩, res)
  else (sys, errV "ERR invalid request format")

/-- Executing a sequence of decoded requests against a fresh engine with
an initially empty AOF, keeping the final system state. -/
def runDirect (seq : List Value) : Sys :=
  seq.foldl (fun sys v => (clientStep sys v).1) ⟨Store.empty, []⟩

/-- The replay callback in `main` (src/main.go lines 29-41): take the
first element (a panic on an empty array), uppercase it, look up the
handler (an unknown command is skipped), and execute directly — no AOF
append. -/
def replayFn (st : Store) (v : Value) : Except RErr Store :=
  match v.array with
  | [] => .error .panicked
  | first :: args =>
    match getHandler (goToUpper first.bulk) with
    | none => .ok st
    | some h => .ok (h args st).2

/-- `AOF.Read` (src/aof.go lines 65-90): decode one value at a time until
end of stream; `io.EOF` is clean termination, any other decode failure is
returned.  `recFuel` bounds the number of records, `rdFuel` the nesting
depth inside one record. -/
def aofReplay : Nat → Nat → List Char → Store → Except RErr Store
  | 0, _, _, _ => .error .outOfFuel
  | rf + 1, rdFuel, s, st =>
    match respRead rdFuel s with
    | .error e => if e = .eof then .ok st else .error e
    | .ok (v, rest) =>
      match replayFn st v with
      | .error e => .error e
      | .ok st' => aofReplay rf rdFuel rest st'

/-! ## Lemmas: decimal digits round-trip -/

theorem digitChar_toNat (d : Nat) (h : d < 10) : (digitChar d).toNat = 48 + d := by
  interval_cases d <;> decide

/-- The value of appending the digits of `n` after digits already worth
`a` (the reading of `natDigitsGo`'s output by `parseFold`). -/
def pdF : Nat → Nat → Nat → Nat
  | 0, _, a => a
  | f + 1, n, a => if n < 10 then a * 10 + n else pdF f (n / 10) a * 10 + n % 10

theorem parseFold_go (f : Nat) :
    ∀ (n : Nat) (acc : List Char) (a : Nat), n < 10 ^ f →
      parseFold (natDigitsGo f n acc) a = parseFold acc (pdF f n a) := by
  induction f with
  | zero =>
    intro n acc a hn
    simp only [pow_zero, Nat.lt_one_iff] at hn
    subst hn
    simp [natDigitsGo, pdF]
  | succ f ih =>
    intro n acc a hn
    by_cases h10 : n < 10
    · simp only [natDigitsGo, if_pos h10, pdF, parseFold]
      have hb : 48 ≤ (digitChar n).toNat ∧ (digitChar n).toNat ≤ 57 := by
        rw [digitChar_toNat n h10]; omega
      rw [if_pos hb, digitChar_toNat n h10]
      congr 2
      omega
    · simp only [natDigitsGo, if_neg h10, pdF]
      have hdiv : n / 10 < 10 ^ f := by
        rw [Nat.div_lt_iff_lt_mul (by norm_num)]
        calc n < 10 ^ (f + 1) := hn
          _ = 10 ^ f * 10 := by ring
      rw [ih (n / 10) _ a hdiv]
      have hm : n % 10 < 10 := Nat.mod_lt _ (by norm_num)
      simp only [parseFold]
      have hb : 48 ≤ (digitChar (n % 10)).toNat ∧ (digitChar (n % 10)).toNat ≤ 57 := by
        rw [digitChar_toNat _ hm]; omega
      rw [if_pos hb, digitChar_toNat _ hm]
      congr 2
      omega

theorem pdF_zero (f : Nat) : ∀ n : Nat, n < 10 ^ f → pdF f n 0 = n := by
  induction f with
  | zero =>
    intro n hn
    simp only [pow_zero, Nat.lt_one_iff] at hn
    subst hn
    rfl
  | succ f ih =>
    intro n hn
    by_cases h10 : n < 10
    · simp [pdF, h10]
    · have hdiv : n / 10 < 10 ^ f := by
        rw [Nat.div_lt_iff_lt_mul (by norm_num)]
        calc n < 10 ^ (f + 1) := hn
          _ = 10 ^ f * 10 := by ring
      simp only [pdF, if_neg h10, ih _ hdiv]
      omega

theorem natDigitsGo_ne_nil (f : Nat) :
    ∀ (n : Nat) (acc : List Char), acc ≠ [] → natDigitsGo f n acc ≠ [] := by
  induction f with
  | zero => intro n acc h; simpa [natDigitsGo] using h
  | succ f ih =>
    intro n acc h
    by_cases h10 : n < 10
    · simp [natDigitsGo, h10]
    · simp only [natDigitsGo, if_neg h10]
      exact ih _ _ (by simp)

theorem natDigits_ne_nil (n : Nat) : natDigits n ≠ [] := by
  unfold natDigits natDigitsGo
  by_cases h10 : n < 10
  · simp [h10]
  · simp only [if_neg h10]
    exact natDigitsGo_ne_nil _ _ _ (by simp)

theorem lt_ten_pow_succ (n : Nat) : n < 10 ^ (n + 1) := by
  calc n < 10 ^ n := Nat.lt_pow_self (by norm_num) n
    _ ≤ 10 ^ (n + 1) := Nat.pow_le_pow_right (by norm_num) (by omega)

theorem parseDigits_natDigits (n : Nat) : parseDigits (natDigits n) = some n := by
  have key : parseFold (natDigits n) 0 = some n := by
    unfold natDigits
    rw [parseFold_go (n + 1) n [] 0 (lt_ten_pow_succ n)]
    simp [parseFold, pdF_zero (n + 1) n (lt_ten_pow_succ n)]
  rcases h : natDigits n with _ | ⟨c, t⟩
  · exact absurd h (natDigits_ne_nil n)
  · rw [parseDigits, ← h, key]

theorem natDigitsGo_mem (f : Nat) :
    ∀ (n : Nat) (acc : List Char) (c : Char), c ∈ natDigitsGo f n acc →
      c ∈ acc ∨ ∃ d, d < 10 ∧ c = digitChar d := by
  induction f with
  | zero => intro n acc c h; exact Or.inl (by simpa [natDigitsGo] using h)
  | succ f ih =>
    intro n acc c h
    by_cases h10 : n < 10
    · simp only [natDigitsGo, if_pos h10, List.mem_cons] at h
      rcases h with h | h
      · exact Or.inr ⟨n, h10, h⟩
      · exact Or.inl h
    · simp only [natDigitsGo, if_neg h10] at h
      rcases ih _ _ _ h with h' | h'
      · simp only [List.mem_cons] at h'
        rcases h' with h' | h'
        · exact Or.inr ⟨n % 10, Nat.mod_lt _ (by norm_num), h'⟩
        · exact Or.inl h'
      · exact Or.inr h'

theorem natDigits_mem (n : Nat) (c : Char) (h : c ∈ natDigits n) :
    ∃ d, d < 10 ∧ c = digitChar d := by
  rcases natDigitsGo_mem _ _ _ _ h with h' | h'
  · simp at h'
  · exact h'

theorem natDigits_mem_toNat (n : Nat) (c : Char) (h : c ∈ natDigits n) :
    48 ≤ c.toNat ∧ c.toNat ≤ 57 := by
  obtain ⟨d, hd, rfl⟩ := natDigits_mem n c h
  rw [digitChar_toNat d hd]
  omega

theorem natDigits_not_cr (n : Nat) (c : Char) (h : c ∈ natDigits n) : c ≠ '\r' := by
  intro hc
  have := natDigits_mem_toNat n c h
  rw [hc] at this
  simp at this

/-! ## Lemmas: `readLine` on a CRLF-terminated line -/

theorem readLineAux_spec :
    ∀ (l : List Char) (acc : List Char) (c0 : Char) (rest : List Char),
      (∀ x ∈ l, x ≠ '\r') → acc.getLast? ≠ some '\r' →
      readLineAux acc (l ++ '\r' :: c0 :: rest) = .ok (acc ++ l, rest) := by
  intro l
  induction l with
  | nil =>
    intro acc c0 rest _ hacc
    rw [List.nil_append, readLineAux, if_neg hacc, readLineAux]
    simp
  | cons x l' ih =>
    intro acc c0 rest hl hacc
    have hx : x ≠ '\r' := hl x (by simp)
    rw [List.cons_append, readLineAux, if_neg hacc]
    rw [ih (acc ++ [x]) c0 rest (fun y hy => hl y (by simp [hy]))]
    · simp
    · simp [List.getLast?_concat, hx]

theorem readLine_crlf (l : List Char) (rest : List Char)
    (hl : ∀ x ∈ l, x ≠ '\r') :
    readLine (l ++ '\r' :: '\n' :: rest) = .ok (l, rest) := by
  rw [readLine, readLineAux_spec l [] '\n' rest hl (by simp)]
  simp

/-! ## Lemmas: `readInteger` on an encoded length -/

theorem data_mk (l : List Char) : (String.mk l).data = l := rfl

theorem mk_data (s : String) : String.mk s.data = s := rfl

theorem goParseIntCore_natDigits (n : Nat) :
    goParseIntCore (natDigits n) = some (n : Int) := by
  rcases hd : natDigits n with _ | ⟨c, t⟩
  · exact absurd hd (natDigits_ne_nil n)
  · have hc : c ∈ natDigits n := by rw [hd]; simp
    have hb := natDigits_mem_toNat n c hc
    have hcp : c ≠ '+' := by
      intro hc'; rw [hc'] at hb; simp at hb
    have hcm : c ≠ '-' := by
      intro hc'; rw [hc'] at hb; simp at hb
    have hpd : parseDigits (c :: t) = some n := by rw [← hd, parseDigits_natDigits]
    simp only [goParseIntCore]
    rw [if_neg hcp, if_neg hcm, hpd]
    rfl

theorem goParseInt_natDigits (n : Nat) (h : n < 2 ^ 63) :
    goParseInt (String.mk (natDigits n)) = some (n : Int) := by
  have h' : (n : Int) < 2 ^ 63 := by exact_mod_cast h
  unfold goParseInt
  rw [data_mk, goParseIntCore_natDigits n]
  dsimp only
  rw [if_pos]
  constructor
  · exact le_trans (by norm_num) (Int.natCast_nonneg n)
  · omega

theorem readInteger_digits (n : Nat) (rest : List Char) (h : n < 2 ^ 63) :
    readInteger (natDigits n ++ '\r' :: '\n' :: rest) = .ok ((n : Int), rest) := by
  unfold readInteger
  rw [readLine_crlf _ _ (natDigits_not_cr n)]
  simp [goParseInt_natDigits n h]

/-! ## The request-side fragment the decoder can reproduce -/

mutual

/-- A canonical request-side value: a bulk string or an array of such
values, built with the unused struct fields zero and with lengths that
fit Go's int64 (`strconv.ParseInt` rejects larger declared lengths). -/
def canonV : Value → Bool
  | .mk typ str num bulk arr =>
    (typ == "bulk" && str == "" && num == 0 && decide (bulk.length < 2 ^ 63)
      && arr.isEmpty) ||
    (typ == "array" && str == "" && num == 0 && bulk == ""
      && decide (arr.length < 2 ^ 63) && canonL arr)

def canonL : List Value → Bool
  | [] => true
  | v :: vs => canonV v && canonL vs

end

theorem canonL_mem : ∀ (l : List Value), canonL l = true →
    ∀ v ∈ l, canonV v = true := by
  intro l
  induction l with
  | nil => intro _ v hv; simp at hv
  | cons w ws ih =>
    intro hcl v hv
    rw [canonL, Bool.and_eq_true] at hcl
    rcases List.mem_cons.mp hv with rfl | hv'
    · exact hcl.1
    · exact ih hcl.2 v hv'

/-! ## Decode is a left inverse of encode on canonical values -/

theorem readLoop_marshal (f : Nat)
    (IH : ∀ v, canonV v = true → sizeOf v ≤ f →
      ∀ rest, respRead f (v.marshal ++ rest) = .ok (v, rest)) :
    ∀ (l : List Value), canonL l = true → (∀ v ∈ l, sizeOf v ≤ f) →
      ∀ rest, readLoop (respRead f) l.length (marshalList l ++ rest) = .ok (l, rest) := by
  intro l
  induction l with
  | nil => intro _ _ rest; simp [marshalList, readLoop]
  | cons v vs ih =>
    intro hcl hsz rest
    rw [canonL, Bool.and_eq_true] at hcl
    have h1 := IH v hcl.1 (hsz v (by simp)) (marshalList vs ++ rest)
    have h2 := ih hcl.2 (fun w hw => hsz w (by simp [hw])) rest
    simp only [marshalList, List.length_cons, readLoop, List.append_assoc, h1, h2]

theorem respRead_marshal (f : Nat) :
    ∀ (v : Value), canonV v = true → sizeOf v ≤ f →
      ∀ rest, respRead f (v.marshal ++ rest) = .ok (v, rest) := by
  induction f with
  | zero =>
    intro v _ hs rest
    exfalso
    obtain ⟨typ, str, num, bulk, arr⟩ := v
    simp [Value.mk.sizeOf_spec] at hs
  | succ f ih =>
    intro v hc hs rest
    obtain ⟨typ, str, num, bulk, arr⟩ := v
    simp only [canonV, Bool.or_eq_true, Bool.and_eq_true, beq_iff_eq,
      decide_eq_true_eq, List.isEmpty_iff] at hc
    rcases hc with ⟨⟨⟨⟨htyp, hstr⟩, hnum⟩, hlen⟩, harr⟩ |
      ⟨⟨⟨⟨⟨htyp, hstr⟩, hnum⟩, hbulk⟩, hlen⟩, hcl⟩
    · subst htyp hstr hnum harr
      -- A canonical bulk string: marker, digits of the length, CRLF,
      -- the payload bytes, CRLF.
      simp only [Value.marshal, String.reduceEq, reduceIte]
      simp only [List.cons_append, List.append_assoc, List.nil_append, respRead,
        Char.reduceEq, reduceIte]
      rw [readBulk, readInteger_digits bulk.length (bulk.data ++ '\r' :: '\n' :: rest) hlen]
      dsimp only
      rw [if_neg (by omega : ¬ ((bulk.length : Int) < 0))]
      have hrl : readLine ('\r' :: '\n' :: rest) = .ok ([], rest) :=
        readLine_crlf [] rest (by simp)
      have ht : List.take bulk.length (bulk.data ++ '\r' :: '\n' :: rest) = bulk.data := by
        have hdl : bulk.length = bulk.data.length := rfl
        rw [hdl, List.take_left]
      have hd2 : List.drop bulk.length (bulk.data ++ '\r' :: '\n' :: rest)
          = '\r' :: '\n' :: rest := by
        have hdl : bulk.length = bulk.data.length := rfl
        rw [hdl, List.drop_left]
      simp only [Int.toNat_natCast, ht, hd2, List.length_take]
      simp [dropLine, hrl, mk_data]
    · subst htyp hstr hnum hbulk
      -- A canonical array: marker, digits of the count, CRLF, the
      -- elements' encodings in order.
      have hsz : ∀ w ∈ arr, sizeOf w ≤ f := by
        intro w hw
        have h1 : sizeOf w < sizeOf arr := List.sizeOf_lt_of_mem hw
        have h2 : sizeOf (Value.mk "array" "" 0 "" arr) ≤ f + 1 := hs
        simp [Value.mk.sizeOf_spec] at h2
        omega
      simp only [Value.marshal, String.reduceEq, reduceIte]
      simp only [List.cons_append, List.append_assoc, List.nil_append, respRead,
        Char.reduceEq, reduceIte]
      rw [readInteger_digits arr.length (marshalList arr ++ rest) hlen]
      dsimp only
      simp only [Int.toNat_natCast, readLoop_marshal f ih arr hcl hsz rest]

/-! ## Store lemmas -/

theorem lookupA_insertA_self {α : Type} (m : List (String × α)) (k : String) (v : α) :
    lookupA (insertA m k v) k = some v := by
  induction m with
  | nil => simp [insertA, lookupA]
  | cons p t ih =>
    obtain ⟨k', v'⟩ := p
    by_cases hk : k' = k
    · simp [insertA, hk, lookupA]
    · simp only [insertA, if_neg hk, lookupA, ih]

theorem insertA_insertA_self {α : Type} (m : List (String × α)) (k : String) (v w : α) :
    insertA (insertA m k v) k w = insertA m k w := by
  induction m with
  | nil => simp [insertA]
  | cons p t ih =>
    obtain ⟨k', v'⟩ := p
    by_cases hk : k' = k
    · simp [insertA, hk]
    · simp only [insertA, if_neg hk, ih]

/-! ## Claim C2 -/

/-- C2 counterexample: the decoder supports only the `*` and `$` markers,
so decoding the encoding of the SimpleString `"OK"` does not reproduce it:
it yields the zero Value with the text still unread. -/
theorem c2_simple_string_no_roundtrip :
    respRead 5 ((strV "OK").marshal) ≠ .ok (strV "OK", []) ∧
    respRead 5 ((strV "OK").marshal) = .ok (Value.emptyV, ['O', 'K', '\r', '\n']) := by
  constructor
  · intro h
    rw [show respRead 5 ((strV "OK").marshal)
        = .ok (Value.emptyV, ['O', 'K', '\r', '\n']) from rfl] at h
    simp at h
  · rfl

/-- C2 (amended): decode(encode(v)) = v holds for the request-side
fragment the decoder supports — canonical BulkString and Array values
(lengths within int64) — with enough fuel for the nesting. -/
theorem c2_decode_encode_roundtrip (v : Value) (f : Nat)
    (hc : canonV v = true) (hf : sizeOf v ≤ f) :
    respRead f v.marshal = .ok (v, []) := by
  have h := respRead_marshal f v hc hf []
  rwa [List.append_nil] at h

/-- Witness for C2 (amended) at a concrete array of bulk strings. -/
theorem c2_decode_encode_roundtrip_witness :
    canonV (Value.mk "array" "" 0 "" [bulkV "GET", bulkV "k"]) = true ∧
    respRead 1000000 (Value.mk "array" "" 0 "" [bulkV "GET", bulkV "k"]).marshal
      = .ok (Value.mk "array" "" 0 "" [bulkV "GET", bulkV "k"], []) := by
  constructor
  · rfl
  · exact c2_decode_encode_roundtrip _ 1000000 (by rfl) (by decide)

/-! ## Claim C3 -/

/-- C3 (the code at the failing input): a stream whose marker byte `'+'`
is not one of the two supported markers decodes to the zero Value with a
nil error — no `ProtocolError` — contradicting the specified behaviour. -/
theorem c3_unknown_marker_silent_default :
    respRead 5 ['+', 'O', 'K', '\r', '\n'] = .ok (Value.emptyV, ['O', 'K', '\r', '\n']) :=
  rfl

/-! ## Claim C4 -/

/-- C4 (the code at the failing input): an Integer Value has no case in
`Value.Marshal`'s switch, so it encodes to the empty byte buffer rather
than failing with an `EncodingError`, contradicting the specified
behaviour. -/
theorem c4_integer_marshals_empty : Value.marshal (intV 5) = [] := rfl

/-! ## Claim C5 -/

/-- C5 (the code at the failing input): a bulk string declaring length 5
over a stream that ends after 2 payload bytes decodes without any error
to a Value padded with zero bytes — no `IOError` — contradicting the
specified behaviour. -/
theorem c5_truncated_bulk_no_error :
    respRead 5 ['$', '5', '\r', '\n', 'a', 'b']
      = .ok (.mk "bulk" "" 0 (String.mk ['a', 'b', '\x00', '\x00', '\x00']) [], []) :=
  rfl

/-! ## Claim C6 -/

/-- C6: INCR on a key whose stored string does not parse as a base-10
integer returns the Error Value `ERR value is not an integer` and leaves
the entire store (scalar space included) unchanged. -/
theorem c6_incr_non_integer (st : Store) (k s : String)
    (hk : lookupA st.sets k = some s) (hs : goAtoi s = none) :
    handleIncr [bulkV k] st = (errV "ERR value is not an integer", st) := by
  simp only [handleIncr, bulkV, Value.bulk, hk, hs]

/-- Witness for C6 at the spec's example: a key holding `"abc"`. -/
theorem c6_incr_non_integer_witness :
    handleIncr [bulkV "k"] ⟨[("k", "abc")], []⟩
      = (errV "ERR value is not an integer", ⟨[("k", "abc")], []⟩) :=
  c6_incr_non_integer ⟨[("k", "abc")], []⟩ "k" "abc" rfl rfl

/-! ## Claim C7 -/

/-- C7 counterexample: PING is dispatched with two arguments — violating
its declared arity of 0 or 1 — yet returns a SimpleString echo, not an
Error Value, so the claim fails for PING. -/
theorem c7_ping_violates_arity_claim :
    handlePing [bulkV "a", bulkV "b"] Store.empty = (strV "a", Store.empty) ∧
    (strV "a").typ ≠ "error" := by
  refine ⟨rfl, ?_⟩
  simp [strV, Value.typ]

/-- C7 (amended): every command other than PING — SET, GET, DEL, EXISTS,
INCR, HSET, HGET, HGETALL — checks its arity first and, on violation,
returns exactly `ERR wrong number of arguments for ` the lowercased
command name ` command` while leaving both key spaces untouched. -/
theorem c7_arity_errors (args : List Value) (st : Store) :
    (args.length ≠ 2 →
      handleSet args st = (errV "ERR wrong number of arguments for 'set' command", st)) ∧
    (args.length ≠ 1 →
      handleGet args st = (errV "ERR wrong number of arguments for 'get' command", st)) ∧
    (args.length = 0 →
      handleDel args st = (errV "ERR wrong number of arguments for 'del' command", st)) ∧
    (args.length = 0 →
      handleExists args st = (errV "ERR wrong number of arguments for 'exists' command", st)) ∧
    (args.length ≠ 1 →
      handleIncr args st = (errV "ERR wrong number of arguments for 'incr' command", st)) ∧
    (args.length ≠ 3 →
      handleHSet args st = (errV "ERR wrong number of arguments for 'hset' command", st)) ∧
    (args.length ≠ 2 →
      handleHGet args st = (errV "ERR wrong number of arguments for 'hget' command", st)) ∧
    (args.length ≠ 1 →
      handleHGetAll args st = (errV "ERR wrong number of arguments for 'hgetall' command", st)) := by
  rcases args with _ | ⟨a1, _ | ⟨a2, _ | ⟨a3, _ | ⟨a4, t⟩⟩⟩⟩ <;>
    refine ⟨fun h => ?_, fun h => ?_, fun h => ?_, fun h => ?_,
      fun h => ?_, fun h => ?_, fun h => ?_, fun h => ?_⟩ <;>
    first
      | rfl
      | exact absurd rfl h
      | (exfalso; simp at h)

/-- Witness for C7 (amended): the empty argument list violates all eight
arities at once. -/
theorem c7_arity_errors_witness :
    handleSet [] Store.empty
      = (errV "ERR wrong number of arguments for 'set' command", Store.empty) ∧
    handleGet [] Store.empty
      = (errV "ERR wrong number of arguments for 'get' command", Store.empty) ∧
    handleDel [] Store.empty
      = (errV "ERR wrong number of arguments for 'del' command", Store.empty) ∧
    handleExists [] Store.empty
      = (errV "ERR wrong number of arguments for 'exists' command", Store.empty) ∧
    handleIncr [] Store.empty
      = (errV "ERR wrong number of arguments for 'incr' command", Store.empty) ∧
    handleHSet [] Store.empty
      = (errV "ERR wrong number of arguments for 'hset' command", Store.empty) ∧
    handleHGet [] Store.empty
      = (errV "ERR wrong number of arguments for 'hget' command", Store.empty) ∧
    handleHGetAll [] Store.empty
      = (errV "ERR wrong number of arguments for 'hgetall' command", Store.empty) := by
  obtain ⟨h1, h2, h3, h4, h5, h6, h7, h8⟩ := c7_arity_errors [] Store.empty
  exact ⟨h1 (by decide), h2 (by decide), h3 (by decide), h4 (by decide),
    h5 (by decide), h6 (by decide), h7 (by decide), h8 (by decide)⟩

/-! ## Claim C8 -/

/-- C8: after `SET k v` a `GET k` returns the BulkString `v` (and reads
do not change state); `GET` on a key absent from the scalar space returns
the Null value. -/
theorem c8_set_then_get (st : Store) (k v : String) :
    (handleGet [bulkV k] (handleSet [bulkV k, bulkV v] st).2
      = (bulkV v, (handleSet [bulkV k, bulkV v] st).2)) ∧
    (lookupA st.sets k = none → handleGet [bulkV k] st = (nullV, st)) := by
  constructor
  · simp only [handleSet, handleGet, bulkV, Value.bulk, lookupA_insertA_self]
  · intro h
    simp only [handleGet, bulkV, Value.bulk, h]

/-- Witness for C8 at concrete values over the empty store. -/
theorem c8_set_then_get_witness :
    (handleGet [bulkV "k"] (handleSet [bulkV "k", bulkV "v"] Store.empty).2
      = (bulkV "v", (handleSet [bulkV "k", bulkV "v"] Store.empty).2)) ∧
    (handleGet [bulkV "k"] Store.empty = (nullV, Store.empty)) := by
  obtain ⟨h1, h2⟩ := c8_set_then_get Store.empty "k" "v"
  exact ⟨h1, h2 rfl⟩

/-! ## Claim C10 -/

/-- C10: PING with two or more arguments is no arity error: it echoes the
first argument's bulk payload as a SimpleString, ignores the rest, and
modifies no key space. -/
theorem c10_ping_echoes_first (args : List Value) (st : Store)
    (h : 2 ≤ args.length) :
    handlePing args st = (strV (args.headD Value.emptyV).bulk, st) ∧
    (handlePing args st).1.typ = "string" := by
  rcases args with _ | ⟨a, t⟩
  · simp at h
  · exact ⟨rfl, rfl⟩

/-- Witness for C10 at a two-argument call. -/
theorem c10_ping_echoes_first_witness :
    handlePing [bulkV "x", bulkV "y"] Store.empty = (strV "x", Store.empty) ∧
    (handlePing [bulkV "x", bulkV "y"] Store.empty).1.typ = "string" := by
  have h := c10_ping_echoes_first [bulkV "x", bulkV "y"] Store.empty (by decide)
  exact h

/-! ## Claim C9 -/

/-- `n` successive INCR invocations on key `k`. -/
def incrIter (k : String) : Nat → Store → Store
  | 0, st => st
  | n + 1, st => (handleIncr [bulkV k] (incrIter k n st)).2

theorem wrap64_eq_self (x : Int) (h1 : -(2 ^ 63) ≤ x) (h2 : x ≤ 2 ^ 63 - 1) :
    wrap64 x = x := by
  unfold wrap64
  have h : (x + 2 ^ 63) % 2 ^ 64 = x + 2 ^ 63 := Int.emod_eq_of_lt (by omega) (by omega)
  omega

theorem wrap64_two_pow_63 : wrap64 (2 ^ 63) = -(2 ^ 63) := by decide

theorem incrIter_succ (k : String) (n : Nat) (st : Store) :
    incrIter k (n + 1) st = (handleIncr [bulkV k] (incrIter k n st)).2 := rfl

theorem goAtoi_goItoa_pos (m : Nat) (h : m < 2 ^ 63) :
    goAtoi (goItoa (m : Int)) = some (m : Int) := by
  have h0 : ¬ ((m : Int) < 0) := by omega
  rw [goAtoi, goItoa, if_neg h0, Int.toNat_natCast]
  exact goParseInt_natDigits m h

theorem handleIncr_absent (st : Store) (k : String)
    (hk : lookupA st.sets k = none) :
    handleIncr [bulkV k] st = (intV 1, { st with sets := insertA st.sets k "1" }) := by
  simp only [handleIncr, bulkV, Value.bulk, hk]

theorem handleIncr_present (st : Store) (k s : String) (m : Int)
    (hk : lookupA st.sets k = some s) (hs : goAtoi s = some m) :
    handleIncr [bulkV k] st
      = (intV (wrap64 (m + 1)),
          { st with sets := insertA st.sets k (goItoa (wrap64 (m + 1))) }) := by
  simp only [handleIncr, bulkV, Value.bulk, hk, hs]

/-- The state after `n ≥ 1` increments of an initially absent key: the key
holds the decimal string of `n`, and nothing else changed — as long as
`n` stays below `2 ^ 63`, where Go's `int` would overflow. -/
theorem incrIter_closed (k : String) (st : Store) (hk : lookupA st.sets k = none) :
    ∀ n : Nat, 1 ≤ n → n < 2 ^ 63 →
      incrIter k n st = { st with sets := insertA st.sets k (goItoa (n : Int)) } := by
  intro n h1 h2
  induction n, h1 using Nat.le_induction with
  | base =>
    rw [show incrIter k 1 st = (handleIncr [bulkV k] st).2 from rfl,
      handleIncr_absent st k hk]
    have hone : goItoa ((1 : Nat) : Int) = "1" := rfl
    rw [hone]
  | succ n h1 ih =>
    have hn : n < 2 ^ 63 := by omega
    have hih := ih hn
    have hlk : lookupA (incrIter k n st).sets k = some (goItoa (n : Int)) := by
      rw [hih]; exact lookupA_insertA_self _ _ _
    have hstep := handleIncr_present (incrIter k n st) k (goItoa (n : Int)) (n : Int)
      hlk (goAtoi_goItoa_pos n hn)
    have hw : wrap64 ((n : Int) + 1) = (n : Int) + 1 :=
      wrap64_eq_self _ (by omega) (by omega)
    rw [show incrIter k (n + 1) st = (handleIncr [bulkV k] (incrIter k n st)).2 from rfl,
      hstep, hw, hih]
    simp only [insertA_insertA_self]
    norm_num

/-- C9 (amended): INCR on an absent key returns Integer 1 and stores
`"1"`; and for `1 ≤ n < 2 ^ 63` (below the int64 overflow), `n` INCRs
from absence leave the decimal string of `n` stored, the `n`-th call
returning Integer `n`. -/
theorem c9_incr_counts (k : String) (st : Store) (n : Nat)
    (hk : lookupA st.sets k = none) (h1 : 1 ≤ n) (h2 : n < 2 ^ 63) :
    handleIncr [bulkV k] st = (intV 1, { st with sets := insertA st.sets k "1" }) ∧
    lookupA (incrIter k n st).sets k = some (goItoa (n : Int)) ∧
    (handleIncr [bulkV k] (incrIter k (n - 1) st)).1 = intV (n : Int) := by
  refine ⟨handleIncr_absent st k hk, ?_, ?_⟩
  · rw [incrIter_closed k st hk n h1 h2]
    exact lookupA_insertA_self _ _ _
  · match n, h1 with
    | 1, _ =>
      rw [show incrIter k 0 st = st from rfl, handleIncr_absent st k hk]
      rfl
    | m + 2, _ =>
      have hm : 1 ≤ m + 1 := by omega
      have hm2 : m + 1 < 2 ^ 63 := by omega
      have hih := incrIter_closed k st hk (m + 1) hm hm2
      have hlk : lookupA (incrIter k (m + 1) st).sets k
          = some (goItoa ((m + 1 : Nat) : Int)) := by
        rw [hih]; exact lookupA_insertA_self _ _ _
      have hstep := handleIncr_present (incrIter k (m + 1) st) k
        (goItoa ((m + 1 : Nat) : Int)) ((m + 1 : Nat) : Int) hlk
        (goAtoi_goItoa_pos (m + 1) hm2)
      have hw : wrap64 (((m + 1 : Nat) : Int) + 1) = ((m + 2 : Nat) : Int) := by
        have hws := wrap64_eq_self (((m + 1 : Nat) : Int) + 1) (by omega) (by omega)
        simp only [hws]
        omega
      rw [show (m + 2) - 1 = m + 1 from by omega, hstep, hw]

/-- Witness for C9 (amended) at `n = 3` over the empty store. -/
theorem c9_incr_counts_witness :
    (handleIncr [bulkV "k"] Store.empty
      = (intV 1, { Store.empty with sets := insertA [] "k" "1" })) ∧
    lookupA (incrIter "k" 3 Store.empty).sets "k" = some (goItoa 3) ∧
    (handleIncr [bulkV "k"] (incrIter "k" 2 Store.empty)).1 = intV 3 := by
  have h := c9_incr_counts "k" Store.empty 3 rfl (by decide) (by norm_num)
  exact h

/-- C9 counterexample: at `N = 2 ^ 63` the stored Go `int` wraps: the
`N`-th call returns Integer `-(2 ^ 63)`, not Integer `N`, and the stored
string is the decimal of `-(2 ^ 63)`, not the decimal of `N`. -/
theorem c9_overflow_at_two_pow_63 :
    lookupA (incrIter "k" (2 ^ 63) Store.empty).sets "k"
      = some (goItoa (-(2 ^ 63) : Int)) ∧
    goItoa (-(2 ^ 63) : Int) ≠ String.mk (natDigits (2 ^ 63)) ∧
    (handleIncr [bulkV "k"] (incrIter "k" (2 ^ 63 - 1) Store.empty)).1
      = intV (-(2 ^ 63) : Int) ∧
    intV (-(2 ^ 63) : Int) ≠ intV (((2 ^ 63 : Nat) : Int)) := by
  have hk : lookupA (Store.empty).sets "k" = none := rfl
  have hprev := incrIter_closed "k" Store.empty hk (2 ^ 63 - 1)
    (by norm_num) (by norm_num)
  have hlk : lookupA (incrIter "k" (2 ^ 63 - 1) Store.empty).sets "k"
      = some (goItoa (((2 ^ 63 - 1 : Nat) : Int))) := by
    rw [hprev]; exact lookupA_insertA_self _ _ _
  have hstep := handleIncr_present (incrIter "k" (2 ^ 63 - 1) Store.empty) "k"
    (goItoa (((2 ^ 63 - 1 : Nat) : Int))) (((2 ^ 63 - 1 : Nat) : Int)) hlk
    (goAtoi_goItoa_pos (2 ^ 63 - 1) (by norm_num))
  have hw : wrap64 ((((2 ^ 63 - 1 : Nat) : Int)) + 1) = -(2 ^ 63) := by
    have hc : (((2 ^ 63 - 1 : Nat) : Int)) + 1 = 2 ^ 63 := by
      have : (2 ^ 63 - 1 : Nat) + 1 = 2 ^ 63 := by norm_num
      omega
    rw [hc, wrap64_two_pow_63]
  have hiter : incrIter "k" (2 ^ 63) Store.empty
      = (handleIncr [bulkV "k"] (incrIter "k" (2 ^ 63 - 1) Store.empty)).2 := by
    conv_lhs => rw [show (2 ^ 63 : Nat) = (2 ^ 63 - 1) + 1 from by norm_num]
    rw [incrIter_succ]
  have hne : goItoa (-(2 ^ 63) : Int) ≠ String.mk (natDigits (2 ^ 63)) := by
    intro he
    have hdata := congrArg String.data he
    rw [goItoa, if_pos (by norm_num), data_mk] at hdata
    rcases hd : natDigits (2 ^ 63) with _ | ⟨c, t⟩
    · exact natDigits_ne_nil _ hd
    · have hc : c ∈ natDigits (2 ^ 63) := by rw [hd]; simp
      have hb := natDigits_mem_toNat _ c hc
      rw [hd] at hdata
      have hsplit : ('-' :: (String.mk (natDigits ((-(-(2:Int) ^ 63)).toNat))).data)
          = c :: t := by
        simpa using hdata
      have hcm : c = '-' := List.head_eq_of_cons_eq hsplit.symm
      rw [hcm] at hb
      simp at hb
  refine ⟨?_, hne, ?_, ?_⟩
  · rw [hiter, hstep, hw]
    rw [hprev]
    simp only [insertA_insertA_self]
    exact lookupA_insertA_self _ _ _
  · rw [hstep, hw]
  · intro he
    simp only [intV, Value.mk.injEq, true_and, and_true] at he
    norm_num at he

/-! ## Claim C1 -/

/-- A canonical bulk-string element of a request. -/
def isCanonBulk (v : Value) : Bool :=
  v.typ == "bulk" && v.str == "" && v.num == 0 && v.array.isEmpty
    && decide (v.bulk.length < 2 ^ 63)

/-- A well-formed mutating request: a canonical Array of BulkStrings,
nonempty, whose uppercased command name is SET, DEL, HSET or INCR. -/
def isMutReq (v : Value) : Bool :=
  match v with
  | .mk typ str num bulk arr =>
    typ == "array" && str == "" && num == 0 && bulk == ""
      && decide (arr.length < 2 ^ 63)
      && (match arr with
          | [] => false
          | first :: _ =>
            arr.all isCanonBulk
              && (goToUpper first.bulk == "SET" || goToUpper first.bulk == "DEL"
                || goToUpper first.bulk == "HSET" || goToUpper first.bulk == "INCR"))

theorem canonV_of_isCanonBulk (v : Value) (h : isCanonBulk v = true) :
    canonV v = true := by
  obtain ⟨typ, str, num, bulk, arr⟩ := v
  simp only [isCanonBulk, Value.typ, Value.str, Value.num, Value.bulk, Value.array,
    Bool.and_eq_true, beq_iff_eq, decide_eq_true_eq, List.isEmpty_iff] at h
  simp only [canonV, Bool.or_eq_true, Bool.and_eq_true, beq_iff_eq,
    decide_eq_true_eq, List.isEmpty_iff]
  exact Or.inl ⟨⟨⟨⟨h.1.1.1.1, h.1.1.1.2⟩, h.1.1.2⟩, h.2⟩, h.1.2⟩

theorem canonL_of_all (l : List Value) (h : l.all isCanonBulk = true) :
    canonL l = true := by
  induction l with
  | nil => rfl
  | cons v vs ih =>
    simp only [List.all_cons, Bool.and_eq_true] at h
    rw [canonL, Bool.and_eq_true]
    exact ⟨canonV_of_isCanonBulk v h.1, ih h.2⟩

theorem canonV_of_isMutReq (v : Value) (h : isMutReq v = true) :
    canonV v = true := by
  obtain ⟨typ, str, num, bulk, arr⟩ := v
  rcases arr with _ | ⟨first, args⟩
  · simp [isMutReq] at h
  · simp only [isMutReq, Bool.and_eq_true, beq_iff_eq, decide_eq_true_eq] at h
    simp only [canonV, Bool.or_eq_true, Bool.and_eq_true, beq_iff_eq,
      decide_eq_true_eq, List.isEmpty_iff]
    exact Or.inr ⟨⟨⟨⟨⟨h.1.1.1.1.1, h.1.1.1.1.2⟩, h.1.1.1.2⟩, h.1.1.2⟩, h.1.2⟩,
      canonL_of_all _ h.2.1⟩

/-- The store effect of one dispatched request; the AOF contents play no
role in the store update. -/
def execStore (st : Store) (v : Value) : Store := ((clientStep ⟨st, []⟩ v).1).store

/-- On a well-formed mutating request, one `handleClient` iteration
appends the request's wire encoding to the AOF and applies the handler,
and the replay callback applies the very same handler (no append). -/
theorem clientStep_mut (st : Store) (log : List Char) (v : Value)
    (hv : isMutReq v = true) :
    (clientStep ⟨st, log⟩ v).1 = ⟨execStore st v, log ++ v.marshal⟩ ∧
    replayFn st v = .ok (execStore st v) := by
  obtain ⟨typ, str, num, bulk, arr⟩ := v
  rcases arr with _ | ⟨first, args⟩
  · simp [isMutReq] at hv
  · simp only [isMutReq, Bool.and_eq_true, Bool.or_eq_true, beq_iff_eq,
      decide_eq_true_eq] at hv
    obtain ⟨⟨⟨⟨⟨htyp, hstr⟩, hnum⟩, hbulk⟩, _⟩, _, hcmd⟩ := hv
    subst htyp hstr hnum hbulk
    rcases hcmd with ((hc | hc) | hc) | hc <;>
      exact ⟨by simp [clientStep, execStore, Value.typ, Value.array, hc, getHandler],
        by simp [replayFn, execStore, clientStep, Value.typ, Value.array, hc, getHandler]⟩

/-- Direct execution of a well-formed mutating sequence: the final store
is the fold of the per-request store effects, and the AOF holds exactly
the concatenated wire encodings, in order. -/
theorem runDirect_aux (seq : List Value) :
    ∀ (sys : Sys), (∀ v ∈ seq, isMutReq v = true) →
      seq.foldl (fun s v => (clientStep s v).1) sys
        = ⟨seq.foldl execStore sys.store, sys.log ++ (seq.map Value.marshal).flatten⟩ := by
  induction seq with
  | nil =>
    intro sys _
    simp only [List.foldl_nil, List.map_nil, List.flatten_nil, List.append_nil]
  | cons v vs ih =>
    intro sys h
    obtain ⟨h1, _⟩ := clientStep_mut sys.store sys.log v (h v (by simp))
    simp only [List.foldl_cons, List.map_cons, List.flatten_cons]
    have hsys : clientStep sys v = clientStep ⟨sys.store, sys.log⟩ v := rfl
    rw [hsys, h1, ih _ (fun w hw => h w (by simp [hw]))]
    simp [List.append_assoc]

theorem runDirect_spec (seq : List Value) (h : ∀ v ∈ seq, isMutReq v = true) :
    (runDirect seq).log = (seq.map Value.marshal).flatten ∧
    (runDirect seq).store = seq.foldl execStore Store.empty := by
  unfold runDirect
  rw [runDirect_aux seq ⟨Store.empty, []⟩ h]
  exact ⟨rfl, rfl⟩

/-- Replay over the concatenated encodings of a well-formed mutating
sequence executes exactly the same handlers in the same order. -/
theorem aofReplay_marshal (rdFuel : Nat) (hrd : 1 ≤ rdFuel) :
    ∀ (seq : List Value) (recFuel : Nat) (st : Store),
      (∀ v ∈ seq, isMutReq v = true) →
      (∀ v ∈ seq, sizeOf v ≤ rdFuel) →
      seq.length < recFuel →
      aofReplay recFuel rdFuel ((seq.map Value.marshal).flatten) st
        = .ok (seq.foldl execStore st) := by
  intro seq
  induction seq with
  | nil =>
    intro recFuel st _ _ hrec
    obtain ⟨rf, rfl⟩ : ∃ rf, recFuel = rf + 1 := ⟨recFuel - 1, by omega⟩
    obtain ⟨rd, rfl⟩ : ∃ rd, rdFuel = rd + 1 := ⟨rdFuel - 1, by omega⟩
    simp only [List.map_nil, List.flatten_nil, List.foldl_nil, aofReplay, respRead]
    rfl
  | cons v vs ih =>
    intro recFuel st h hsz hrec
    obtain ⟨rf, rfl⟩ : ∃ rf, recFuel = rf + 1 := ⟨recFuel - 1, by omega⟩
    have hv := h v (by simp)
    have hrr := respRead_marshal rdFuel v (canonV_of_isMutReq v hv)
      (hsz v (by simp)) ((vs.map Value.marshal).flatten)
    obtain ⟨_, hrep⟩ := clientStep_mut st [] v hv
    simp only [List.map_cons, List.flatten_cons, List.foldl_cons, aofReplay, hrr, hrep]
    exact ih rf (execStore st v) (fun w hw => h w (by simp [hw]))
      (fun w hw => hsz w (by simp [hw])) (by simp at hrec ⊢; omega)

/-- C1: replaying the captured AOF of a sequence of well-formed mutating
requests (SET, DEL, HSET, INCR as Arrays of BulkStrings) against fresh,
empty key spaces yields exactly the store produced by executing the same
sequence directly against a fresh engine. -/
theorem c1_replay_equals_direct (seq : List Value) (recFuel rdFuel : Nat)
    (hwf : ∀ v ∈ seq, isMutReq v = true)
    (hsz : ∀ v ∈ seq, sizeOf v ≤ rdFuel)
    (hrd : 1 ≤ rdFuel)
    (hrec : seq.length < recFuel) :
    aofReplay recFuel rdFuel (runDirect seq).log Store.empty
      = .ok ((runDirect seq).store) := by
  obtain ⟨hlog, hstore⟩ := runDirect_spec seq hwf
  rw [hlog, hstore]
  exact aofReplay_marshal rdFuel hrd seq recFuel Store.empty hwf hsz hrec

/-- The concrete request sequence of the C1 witness: SET, INCR, HSET,
DEL, each a canonical Array of BulkStrings. -/
def c1Seq : List Value :=
  [Value.mk "array" "" 0 "" [bulkV "SET", bulkV "a", bulkV "5"],
   Value.mk "array" "" 0 "" [bulkV "INCR", bulkV "a"],
   Value.mk "array" "" 0 "" [bulkV "HSET", bulkV "h", bulkV "f", bulkV "w"],
   Value.mk "array" "" 0 "" [bulkV "DEL", bulkV "a"]]

/-- Witness for C1: a concrete SET / INCR / HSET / DEL sequence. -/
theorem c1_replay_equals_direct_witness :
    aofReplay 10 1000000 (runDirect c1Seq).log Store.empty
      = .ok ((runDirect c1Seq).store) :=
  c1_replay_equals_direct c1Seq 10 1000000
    (by intro v hv; fin_cases hv <;> rfl)
    (by intro v hv; fin_cases hv <;> decide)
    (by decide) (by decide)

end StormyDB
